import Mathlib

set_option maxHeartbeats 1000000
set_option maxRecDepth 8000

/-!
Verification development for the `bitflip` puzzle-game core.

The definitions below are a shallow embedding of `src/bytegrid.rs` and
`src/gameplay.rs`: machine integers become `Nat` with explicit `% 2^w`
where the source relies on the machine width, fallible code returns
`Except`, and the mutable game state becomes explicit state passing.
-/

/-- A 256×256 byte grid (`Grid<u8>` of bytegrid.rs), viewed through its
packed 16-bit linear address space (high byte = x, low byte = y, exactly
the `Index<u16>` instance of the source).  Reads truncate the address to
16 bits and the value to 8 bits, mirroring the `u16` index type and the
`u8` cell type. -/
def ByteGrid : Type := Nat → Nat

namespace ByteGrid

/-- Read the byte at linear address `i` (the `Index<u16>` impl). -/
def get (g : ByteGrid) (i : Nat) : Nat := g (i % 65536) % 256

/-- Write the byte at linear address `i` (the `IndexMut<u16>` impl). -/
def set (g : ByteGrid) (i : Nat) (v : Nat) : ByteGrid :=
  Function.update g (i % 65536) (v % 256)

/-- Value-wise equality over all 65536 cells: the `PartialEq for Grid<T>`
impl of the source compares every cell. -/
def gridEq (a b : ByteGrid) : Prop := ∀ i < 65536, a.get i = b.get i

end ByteGrid

/-- `enum DiffHunk { Seq(u16, Vec<u8>) }`. -/
inductive DiffHunk : Type
  | Seq (pos : Nat) (data : List Nat)
deriving DecidableEq

/-- Start address of a hunk. -/
def DiffHunk.pos : DiffHunk → Nat
  | .Seq p _ => p

/-- Byte payload of a hunk. -/
def DiffHunk.data : DiffHunk → List Nat
  | .Seq _ d => d

/-- One past the last address a hunk covers (`*pos as usize + data.len()`
in `Grid::diff`). -/
def hunkEnd (h : DiffHunk) : Nat := h.pos + h.data.length

/-- `pub struct ByteGridDiff { hunks: Vec<DiffHunk> }`. -/
structure ByteGridDiff where
  hunks : List DiffHunk

namespace ByteGrid

/-- Body of the loop of `Grid::diff` at address `i`: if the grids differ
at `i`, either extend the last hunk (when `i` is within 3 addresses of its
end, gap-filling with `after`-values) or start a new hunk. -/
def diffStep (a b : ByteGrid) (hunks : List DiffHunk) (i : Nat) : List DiffHunk :=
  if a.get i ≠ b.get i then
    match hunks.getLast? with
    | some (.Seq pos data) =>
      let e := pos + data.length
      if i - e ≤ 3 then
        hunks.dropLast ++
          [.Seq pos (data ++ (List.range (i + 1 - e)).map (fun j => b.get (e + j)))]
      else
        hunks ++ [.Seq i [b.get i]]
    | none => hunks ++ [.Seq i [b.get i]]
  else hunks

/-- The hunk list accumulated by `Grid::diff`: a single pass over all
65536 addresses in ascending order. -/
def diffHunks (a b : ByteGrid) : List DiffHunk :=
  (List.range 65536).foldl (diffStep a b) []

/-- `Grid::diff`. -/
def diff (a b : ByteGrid) : ByteGridDiff := ⟨diffHunks a b⟩

/-- Application of one hunk in `Grid::patch`, with the saturating clamp
`l = min(data.len(), u16::MAX as usize + 1 - pos)` of the source. -/
def patchHunk (g : ByteGrid) : DiffHunk → ByteGrid
  | .Seq pos data =>
    let l := min data.length (65536 - pos)
    (List.range l).foldl (fun acc idx => acc.set (pos + idx) (data.getD idx 0)) g

/-- `Grid::patch`: applies hunks in order. -/
def patch (g : ByteGrid) (d : ByteGridDiff) : ByteGrid :=
  d.hunks.foldl patchHunk g

theorem diff_hunks_eq (a b : ByteGrid) : (diff a b).hunks = diffHunks a b := by
  rw [diff]

theorem patch_mk (g : ByteGrid) (hs : List DiffHunk) :
    patch g ⟨hs⟩ = hs.foldl patchHunk g := by
  rw [patch]

theorem diffHunks_eq (a b : ByteGrid) :
    diffHunks a b = (List.range 65536).foldl (diffStep a b) [] := by
  rw [diffHunks]

end ByteGrid

/-- `data.chunks(256)` of `ByteGridDiff::serialize`: splits a list into
consecutive fragments of at most 256 elements (all nonempty). -/
def chunks256 (l : List Nat) : List (List Nat) :=
  if h : l = [] then [] else l.take 256 :: chunks256 (l.drop 256)
termination_by l.length
decreasing_by
  simp only [List.length_drop]
  have : 0 < l.length := List.length_pos.mpr h
  omega

/-- The fragment loop of `ByteGridDiff::serialize`: for each fragment emit
`current_pos as u8`, `(current_pos >> 8) as u8`, `(len - 1) as u8`, then
the payload, advancing `current_pos` by the fragment length. -/
def serializeFrom : Nat → List (List Nat) → List Nat
  | _, [] => []
  | pos, frag :: rest =>
    pos % 256 :: (pos >>> 8) % 256 :: (frag.length - 1) % 256 ::
      (frag ++ serializeFrom (pos + frag.length) rest)

/-- `ByteGridDiff::serialize`. -/
def ByteGridDiff.serialize (d : ByteGridDiff) : List Nat :=
  d.hunks.foldl (fun acc h => acc ++ serializeFrom h.pos (chunks256 h.data)) []

/-- The loop of `ByteGridDiff::deserialize`: as long as at least 4 bytes
remain, read `[addr_lo, addr_hi, len_minus_1]` and a `len`-byte payload;
any 1–3 leftover bytes and any payload overrun are format errors. -/
def deserializeRec : List Nat → Except Unit (List DiffHunk)
  | [] => Except.ok []
  | lo :: hi :: lm1 :: rest =>
    if rest = [] then Except.error ()
    else
      let grid_pos := lo % 256 + (hi % 256) * 256
      let len := lm1 % 256 + 1
      if len ≤ rest.length then
        (deserializeRec (rest.drop len)).map
          (fun hs => DiffHunk.Seq grid_pos (rest.take len) :: hs)
      else Except.error ()
  | _ :: _ => Except.error ()
termination_by d => d.length
decreasing_by
  simp only [List.length_drop, List.length_cons]
  omega

/-- `ByteGridDiff::deserialize`. -/
def ByteGridDiff.deserialize (data : List Nat) : Except Unit ByteGridDiff :=
  (deserializeRec data).map (fun hs => ⟨hs⟩)

/-- `V2` of vecmath.rs: a pair of `i32` coordinates. -/
structure V2 where
  x : Int
  y : Int
deriving DecidableEq

/-- `V2::make`. -/
def V2.make (x y : Int) : V2 := ⟨x, y⟩

/-- `i32 as u8`: the low byte of a two's-complement value. -/
def u8ofInt (v : Int) : Nat := (v % 256).toNat

/-- `enum PlayerPos { Pos(V2), Register(usize) }`. -/
inductive PlayerPos : Type
  | Pos (v : V2)
  | Register (r : Nat)
deriving DecidableEq

/-- `enum TriggerKind { SetPC(u16), EndOfLevel, Message(String) }`. -/
inductive TriggerKind : Type
  | SetPC (addr : Nat)
  | EndOfLevel
  | Message (m : String)
deriving DecidableEq

/-- `struct Trigger`. -/
structure Trigger where
  pos : V2
  effect : TriggerKind
  one_time : Bool
  triggered : Bool
deriving DecidableEq

/-- `Trigger::is_active`. -/
def Trigger.is_active (t : Trigger) : Bool := !t.triggered || !t.one_time

/-- `struct PageState { memory: ByteGrid, triggers: HashMap<u16, Trigger> }`. -/
structure PageState where
  memory : ByteGrid
  triggers : Nat → Option Trigger

/-- `PageState::new`. -/
def PageState.new : PageState := ⟨fun _ => 0, fun _ => none⟩

/-- `joinu8`: `((x as u16) << 8) + y as u16` for byte arguments. -/
def joinu8 (x y : Nat) : Nat := ((x % 256) <<< 8) + y % 256

/-- `joinu16`: pack a grid coordinate into a 16-bit address. -/
def joinu16 (p : V2) : Nat := joinu8 (u8ofInt p.x) (u8ofInt p.y)

/-- `splitu16`: unpack a 16-bit address into `(x = p >> 8, y = p & 0xff)`. -/
def splitu16 (p : Nat) : V2 :=
  ⟨(((p % 65536) >>> 8 : Nat) : Int), (((p % 65536) &&& 0xff : Nat) : Int)⟩

/-- `Index<V2> for ByteGrid`: coordinates truncated with `as u8`. -/
def ByteGrid.getV2 (g : ByteGrid) (p : V2) : Nat :=
  g.get (joinu8 (u8ofInt p.x) (u8ofInt p.y))

/-- `enum WrapingMode`. -/
inductive WrapingMode : Type
  | Block
  | WrapLine
  | WrapGrid
deriving DecidableEq

/-- `enum PageRotationRule`. -/
inductive PageRotationRule : Type
  | Always
  | Never
  | AfterPageInstruction
deriving DecidableEq

/-- `struct GameRules`. -/
structure GameRules where
  wrap_mode : WrapingMode
  reset_registers_on_trigger : Bool
  page_instruction : Bool
  rotate_page : PageRotationRule
deriving DecidableEq

/-- `enum MoveDir`. -/
inductive MoveDir : Type
  | Up
  | Left
  | Down
  | Right
deriving DecidableEq

/-- `enum PlayerMove`. -/
inductive PlayerMove : Type
  | Move (d : MoveDir)
  | RotatePage
deriving DecidableEq

/-- `fn step(p0: V2, d: MoveDir, mode: WrapingMode) -> V2`. -/
def step (p0 : V2) (d : MoveDir) (mode : WrapingMode) : V2 :=
  if mode = .WrapGrid then
    let joined := joinu8 (u8ofInt p0.x) (u8ofInt p0.y)
    let add : Nat := match d with
      | .Up => 0xffff
      | .Left => 0xff00
      | .Down => 0x0001
      | .Right => 0x0100
    splitu16 ((joined + add) % 65536)
  else
    let dp : V2 := match d with
      | .Up => ⟨0, -1⟩
      | .Left => ⟨-1, 0⟩
      | .Down => ⟨0, 1⟩
      | .Right => ⟨1, 0⟩
    let tp := V2.make (p0.x + dp.x) (p0.y + dp.y)
    if 0 ≤ tp.x ∧ tp.x ≤ 255 ∧ 0 ≤ tp.y ∧ tp.y ≤ 255 then tp
    else
      match mode with
      | .Block => p0
      | .WrapLine => ⟨(tp.x + 256) % 256, (tp.y + 256) % 256⟩
      | .WrapGrid => p0

/-- `enum Instruction`. -/
inductive Instruction : Type
  | Swap (a : Nat)
  | Jump (a : Nat)
  | Compare (v : Nat)
  | JumpEqual (a : Nat)
  | JumpLess (a : Nat)
  | JumpGreater (a : Nat)
  | Add (v : Nat)
  | Page (v : Nat)
  | None
deriving DecidableEq

/-- `enum RegisterId { Data = 0, Page = 1, Compare = 2 }`. -/
inductive RegisterId : Type
  | Data
  | Page
  | Compare
deriving DecidableEq

/-- `RegisterId as usize`. -/
def RegisterId.toNat : RegisterId → Nat
  | .Data => 0
  | .Page => 1
  | .Compare => 2

/-- `struct CPU { registers: Vec<Register>, pc: u16 }`.  The register
vector always holds exactly 3 registers (Data, Page, Compare); each is
modelled by its `value` byte (`name` and `protected` carry no logic used
by the simulation). -/
structure CPU where
  registers : Nat → Nat
  pc : Nat

/-- `CPU::new`: data = 0, page = 0, compare = 0xff, pc = 0. -/
def CPU.new : CPU := ⟨fun i => if i = 2 then 0xff else 0, 0⟩

/-- `CPU::get_register(id).value`. -/
def CPU.get_register (c : CPU) (id : RegisterId) : Nat := c.registers id.toNat

/-- `CPU::set_register` (stores a `u8`). -/
def CPU.set_register (c : CPU) (id : RegisterId) (value : Nat) : CPU :=
  { c with registers := Function.update c.registers id.toNat (value % 256) }

/-- `CPU::get_register_effective`. -/
def CPU.get_register_effective (c : CPU) (id : Nat) (player_pos : PlayerPos)
    (player_mask : Nat) : Nat :=
  let v := c.registers id
  match player_pos with
  | .Register r => if r = id then v ||| player_mask else v
  | _ => v

/-- `CPU::get_register_effective_r`. -/
def CPU.get_register_effective_r (c : CPU) (id : RegisterId) (player_pos : PlayerPos)
    (player_mask : Nat) : Nat :=
  c.get_register_effective id.toNat player_pos player_mask

/-- `struct GamePlayState`.  The `cpu: Vec<CPU>` field always holds exactly
one CPU and every source access is `self.cpu[0]`, so it is modelled by a
single `CPU`. -/
structure GamePlayState where
  player : PlayerPos
  player_page : Nat
  player_offset : Nat
  pages : Nat → Option PageState
  cpu : CPU
  visited_pages : Nat → Bool
  game_rules : GameRules
  null_page : PageState
  page_instruction_executed : Bool
  end_of_level : Bool

namespace GamePlayState

/-- `player_mask`: `1 << player_offset` as a `u8`. -/
def player_mask (s : GamePlayState) : Nat := (1 <<< s.player_offset) % 256

/-- `accessible`: `(p & player_mask) == 0`. -/
def accessible (s : GamePlayState) (p : Nat) : Bool := p &&& s.player_mask == 0

/-- `current_page`: lookup of the player's page, falling back to the null
page. -/
def current_page (s : GamePlayState) : PageState :=
  (s.pages s.player_page).getD s.null_page

/-- `effective_value`: the stored byte, OR'd with the player mask when the
player stands at `p`. -/
def effective_value (s : GamePlayState) (page : PageState) (p : V2) : Nat :=
  let v := page.memory.getV2 p
  if s.player = .Pos p then page.memory.getV2 p ||| s.player_mask else v

/-- `reset_registers`: data := 0, compare := 0xff. -/
def reset_registers (s : GamePlayState) : GamePlayState :=
  { s with cpu := (s.cpu.set_register .Data 0).set_register .Compare 0xff }

/-- `change_player_page` (argument is a `u8`). -/
def change_player_page (s : GamePlayState) (page : Nat) : GamePlayState :=
  { s with
    player_page := page % 256,
    visited_pages := Function.update s.visited_pages (page % 256) true }

/-- `change_cpu_page`. -/
def change_cpu_page (s : GamePlayState) (page : Nat) : GamePlayState :=
  ({ s with cpu := s.cpu.set_register .Page page } : GamePlayState).change_player_page page

/-- `apply_triggers`, instrumented with the identity `(page id, packed
position)` of the trigger that fired, if any; `apply_triggers` itself is
the first projection. -/
def apply_triggersF (s : GamePlayState) : GamePlayState × Option (Nat × Nat) :=
  match s.player with
  | .Register _ => (s, none)
  | .Pos pos =>
    match s.pages s.player_page with
    | none => (s, none)
    | some page =>
      match page.triggers (joinu16 pos) with
      | none => (s, none)
      | some trigger =>
        if !trigger.is_active then (s, none)
        else
          let page' := { page with
            triggers := Function.update page.triggers (joinu16 pos)
              (some { trigger with triggered := true }) }
          let s1 := { s with pages := Function.update s.pages s.player_page (some page') }
          let s2 := match trigger.effect with
            | .SetPC new_pc =>
              let sr := if s1.game_rules.reset_registers_on_trigger
                        then s1.reset_registers else s1
              { sr with cpu := { sr.cpu with pc := new_pc } }
            | .EndOfLevel => { s1 with end_of_level := true }
            | .Message m => if m = "WIN" then { s1 with end_of_level := true } else s1
          (s2, some (s.player_page, joinu16 pos))

/-- `apply_triggers`. -/
def apply_triggers (s : GamePlayState) : GamePlayState := s.apply_triggersF.1

/-- `rotate_page`: returns the new state and the (always-false) boolean
the source function returns. -/
def rotate_page (s : GamePlayState) : GamePlayState × Bool :=
  if !(s.game_rules.rotate_page = .Always ∨
       (s.game_rules.rotate_page = .AfterPageInstruction ∧
        s.page_instruction_executed)) then
    (s, false)
  else
    match s.player with
    | .Register _ => (s, false)
    | .Pos _ =>
      match (List.range' 1 255).find? (fun i => s.visited_pages ((s.player_page + i) % 256)) with
      | some i => ({ s with player_page := (s.player_page + i) % 256 }, false)
      | none => (s, false)

/-- `move_player`: returns the new state and the boolean `advance_world`
value the source function returns. -/
def move_player (s : GamePlayState) (dir : MoveDir) : GamePlayState × Bool :=
  let current_page := s.current_page
  match s.player with
  | .Pos v =>
    let target := step v dir s.game_rules.wrap_mode
    if s.accessible (s.effective_value current_page target) then
      ({ s with player := .Pos target }, true)
    else (s, true)
  | .Register r =>
    let target : Nat := match dir with
      | .Up => if r > 0 then r - 1 else r
      | .Down => if r + 1 < 3 then r + 1 else r
      | _ => r
    if !(s.accessible (s.cpu.get_register_effective target s.player s.player_mask)) then
      (s, true)
    else
      let s1 := { s with player := PlayerPos.Register target }
      (s1.change_player_page
        (s1.cpu.get_register_effective_r .Page s1.player s1.player_mask), true)

/-- `read_instruction`. -/
def read_instruction (s : GamePlayState) (pc : Nat) (page_id : Nat) : Instruction :=
  let page := (s.pages page_id).getD s.null_page
  let p := splitu16 pc
  let instr := s.effective_value page p
  let arg_u8 :=
    let a0 := V2.make (p.x + 1) p.y
    if a0.x < 256 then s.effective_value page a0 else 0
  let arg_u16 :=
    let a0 := V2.make (p.x + 1) p.y
    if a0.x < 256 then
      let high := s.effective_value page a0
      let a1 := V2.make (a0.x + 1) a0.y
      let low := if a1.x < 256 then s.effective_value page a1 else 0
      (high <<< 8) ||| low
    else 0
  if instr = 106 then .Jump arg_u16
  else if instr = 115 then .Swap arg_u16
  else if instr = 99 then .Compare arg_u8
  else if instr = 101 then .JumpEqual arg_u16
  else if instr = 108 then .JumpLess arg_u16
  else if instr = 103 then .JumpGreater arg_u16
  else if instr = 97 then .Add arg_u8
  else if instr = 112 then .Page arg_u8
  else .None

/-- `step_cpu` (always invoked with id = 0 on the single CPU). -/
def step_cpu (s : GamePlayState) : GamePlayState :=
  let mask := s.player_mask
  let page_id := s.cpu.get_register_effective_r .Page s.player mask
  let pc := s.cpu.pc
  let instr := s.read_instruction pc page_id
  let s := { s with cpu := { s.cpu with pc := if pc + 1 ≤ 0xffff then pc + 1 else pc } }
  let compare_value := s.cpu.get_register_effective_r .Compare s.player mask
  match instr with
  | .Swap pos =>
    (match s.pages page_id with
    | some page =>
      let v := s.cpu.get_register .Data
      let s := { s with cpu := s.cpu.set_register .Data (page.memory.get pos) }
      let page' := { page with memory := page.memory.set pos v }
      let s := { s with pages := Function.update s.pages page_id (some page') }
      if s.player_page = page_id ∧ s.player = .Pos (splitu16 pos) then
        { s with player := PlayerPos.Register 0 }
      else if s.player = PlayerPos.Register 0 then
        { s with player := .Pos (splitu16 pos), player_page := page_id }
      else s
    | none => s)
  | .Jump target => { s with cpu := { s.cpu with pc := target } }
  | .JumpEqual target =>
    if compare_value = 0 then { s with cpu := { s.cpu with pc := target } } else s
  | .JumpGreater target =>
    if compare_value = 1 then { s with cpu := { s.cpu with pc := target } } else s
  | .JumpLess target =>
    if compare_value > 1 then { s with cpu := { s.cpu with pc := target } } else s
  | .Compare v =>
    let data := s.cpu.get_register_effective_r .Data s.player mask
    let cmp : Nat := if data > v then 1 else if data < v then 255 else 0
    { s with cpu := s.cpu.set_register .Compare cmp }
  | .Page v =>
    if s.game_rules.page_instruction then
      ({ s with page_instruction_executed := true } : GamePlayState).change_cpu_page v
    else s
  | .Add v =>
    let data := s.cpu.get_register_effective_r .Data s.player mask
    { s with cpu := s.cpu.set_register .Data ((data + v) % 256) }
  | .None => { s with cpu := { s.cpu with pc := pc } }

/-- The movement half of `make_move`: dispatch on the action. -/
def movePhase (s : GamePlayState) (action : PlayerMove) : GamePlayState × Bool :=
  match action with
  | .Move dir => s.move_player dir
  | .RotatePage => s.rotate_page

/-- `make_move`, instrumented with the number of CPU instructions fetched
and executed during the action and the identity of the trigger that
fired, if any; `make_move` itself is the first projection. -/
def make_moveF (s : GamePlayState) (action : PlayerMove) :
    GamePlayState × Nat × Option (Nat × Nat) :=
  let m := s.movePhase action
  let advance_world := m.2
  let t := m.1.apply_triggersF
  let s1 := t.1
  let sync := s1.player_page =
    s1.cpu.get_register_effective_r .Page s1.player s1.player_mask
  let s2 := if advance_world = true ∧ sync then s1.step_cpu else s1
  (({ s2 with visited_pages := Function.update s2.visited_pages (s2.player_page % 256) true }),
   (if advance_world = true ∧ sync then 1 else 0), t.2)

/-- `make_move`. -/
def make_move (s : GamePlayState) (action : PlayerMove) : GamePlayState :=
  (s.make_moveF action).1

/-- Trigger lookup by page id and packed position key. -/
def getTrigger (s : GamePlayState) (pid k : Nat) : Option Trigger :=
  (s.pages pid).bind (fun page => page.triggers k)

/-- Number of times the trigger identified by `K = (page id, packed
position)` fires across a sequence of `make_move` actions. -/
def runFires (s : GamePlayState) (acts : List PlayerMove) (K : Nat × Nat) : Nat :=
  match acts with
  | [] => 0
  | a :: rest =>
    (if (s.make_moveF a).2.2 = some K then 1 else 0) + (s.make_move a).runFires rest K

end GamePlayState

namespace ByteGrid

theorem get_lt (g : ByteGrid) (i : Nat) : g.get i < 256 :=
  Nat.mod_lt _ (by norm_num)

theorem get_set (g : ByteGrid) (i v j : Nat) :
    (g.set i v).get j = if j % 65536 = i % 65536 then v % 256 else g.get j := by
  unfold ByteGrid.get ByteGrid.set
  by_cases h : j % 65536 = i % 65536 <;>
    simp [Function.update, h, Nat.mod_mod_of_dvd]

/-- The write loop of `patchHunk`, pointwise. -/
theorem writeRange_get (g : ByteGrid) (pos : Nat) (data : List Nat) :
    ∀ l j, pos + l ≤ 65536 → j < 65536 →
    ((List.range l).foldl (fun acc idx => acc.set (pos + idx) (data.getD idx 0)) g).get j
      = if pos ≤ j ∧ j < pos + l then data.getD (j - pos) 0 % 256 else g.get j := by
  intro l
  induction l with
  | zero =>
    intro j _ _
    rw [List.range_zero]
    simp only [List.foldl_nil]
    rw [if_neg (by omega)]
  | succ m ih =>
    intro j hl hj
    rw [List.range_succ, List.foldl_append]
    simp only [List.foldl_cons, List.foldl_nil]
    rw [get_set, ih j (by omega) hj]
    have hm : pos + m < 65536 := by omega
    by_cases hcur : j = pos + m
    · subst hcur
      rw [if_pos (by omega), if_pos (by omega)]
      have h2 : pos + m - pos = m := by omega
      rw [h2]
    · rw [if_neg (by omega)]
      by_cases hin : pos ≤ j ∧ j < pos + m
      · rw [if_pos hin, if_pos (by omega)]
      · rw [if_neg hin, if_neg (by omega)]

/-- `patchHunk`, pointwise, for a hunk that does not run past the end of
the address space. -/
theorem patchHunk_get (g : ByteGrid) (pos : Nat) (data : List Nat) (j : Nat)
    (hend : pos + data.length ≤ 65536) (hj : j < 65536) :
    (g.patchHunk (.Seq pos data)).get j
      = if pos ≤ j ∧ j < pos + data.length then data.getD (j - pos) 0 % 256 else g.get j := by
  have hmin : min data.length (65536 - pos) = data.length := by omega
  simp only [patchHunk, hmin]
  exact writeRange_get g pos data data.length j hend hj

/-- Applying a list of hunks whose payloads all agree with grid `b` writes
exactly `b`-values over the union of their ranges. -/
theorem patch_get (g b : ByteGrid) (hs : List DiffHunk) (j : Nat) (hj : j < 65536)
    (hvals : ∀ h ∈ hs, ∀ k, k < h.data.length → h.data.getD k 0 = b.get (h.pos + k))
    (hend : ∀ h ∈ hs, hunkEnd h ≤ 65536) :
    (hs.foldl ByteGrid.patchHunk g).get j
      = if ∃ h ∈ hs, h.pos ≤ j ∧ j < hunkEnd h then b.get j else g.get j := by
  induction hs generalizing g with
  | nil => simp
  | cons h t ih =>
    simp only [List.foldl_cons]
    rw [ih (g.patchHunk h) (fun x hx k hk => hvals x (List.mem_cons_of_mem h hx) k hk)
        (fun x hx => hend x (List.mem_cons_of_mem h hx))]
    obtain ⟨pos, data⟩ := h
    have hd : pos + data.length ≤ 65536 := by
      have := hend _ (List.mem_cons_self (DiffHunk.Seq pos data) t)
      simpa [hunkEnd, DiffHunk.pos, DiffHunk.data] using this
    by_cases ht : ∃ x ∈ t, x.pos ≤ j ∧ j < hunkEnd x
    · have hc : ∃ x ∈ DiffHunk.Seq pos data :: t, x.pos ≤ j ∧ j < hunkEnd x := by
        rcases ht with ⟨x, hx1, hx2⟩
        exact ⟨x, List.mem_cons_of_mem _ hx1, hx2⟩
      rw [if_pos ht, if_pos hc]
    · rw [if_neg ht, patchHunk_get g pos data j hd hj]
      by_cases hh : pos ≤ j ∧ j < pos + data.length
      · have hval := hvals _ (List.mem_cons_self (DiffHunk.Seq pos data) t) (j - pos)
          (by simp only [DiffHunk.data]; omega)
        simp only [DiffHunk.data, DiffHunk.pos] at hval
        have hpj : pos + (j - pos) = j := by omega
        rw [hpj] at hval
        have hc : ∃ x ∈ DiffHunk.Seq pos data :: t, x.pos ≤ j ∧ j < hunkEnd x :=
          ⟨DiffHunk.Seq pos data, List.mem_cons_self _ _, by
            simp only [hunkEnd, DiffHunk.pos, DiffHunk.data]; omega⟩
        rw [if_pos hh, if_pos hc, hval, Nat.mod_eq_of_lt (b.get_lt j)]
      · rw [if_neg hh, if_neg]
        rintro ⟨x, hx, hx2⟩
        rcases List.mem_cons.mp hx with rfl | hxt
        · apply hh
          simpa only [hunkEnd, DiffHunk.pos, DiffHunk.data] using hx2
        · exact ht ⟨x, hxt, hx2⟩

end ByteGrid

namespace ByteGrid

theorem getD_map_range (f : Nat → Nat) (m t : Nat) (ht : t < m) :
    ((List.range m).map f).getD t 0 = f t := by
  rw [List.getD_eq_getElem?_getD, List.getElem?_map, List.getElem?_range ht]
  rfl

/-- Loop invariant of `Grid::diff` after scanning addresses `0..n`: every
accumulated hunk is nonempty, carries `after`-values, ends inside the
scanned range, and the hunks cover every scanned differing address. -/
def DiffInv (a b : ByteGrid) (n : Nat) (hs : List DiffHunk) : Prop :=
  (∀ h ∈ hs, h.data ≠ []) ∧
  (∀ h ∈ hs, ∀ k, k < h.data.length → h.data.getD k 0 = b.get (h.pos + k)) ∧
  (∀ h ∈ hs, hunkEnd h ≤ n) ∧
  (∀ j, j < n → a.get j ≠ b.get j → ∃ h ∈ hs, h.pos ≤ j ∧ j < hunkEnd h)

theorem diffStep_of_eq (a b : ByteGrid) (hs : List DiffHunk) (i : Nat)
    (h : a.get i = b.get i) : diffStep a b hs i = hs := by
  unfold diffStep
  rw [if_neg (not_not_intro h)]

theorem diffStep_of_none (a b : ByteGrid) (hs : List DiffHunk) (i : Nat)
    (hne : a.get i ≠ b.get i) (h : hs.getLast? = none) :
    diffStep a b hs i = hs ++ [.Seq i [b.get i]] := by
  unfold diffStep
  rw [if_pos hne, h]

theorem diffStep_of_near (a b : ByteGrid) (hs : List DiffHunk) (i pos : Nat)
    (data : List Nat) (hne : a.get i ≠ b.get i)
    (h : hs.getLast? = some (.Seq pos data)) (hnear : i - (pos + data.length) ≤ 3) :
    diffStep a b hs i = hs.dropLast ++
      [.Seq pos (data ++ (List.range (i + 1 - (pos + data.length))).map
        (fun j => b.get (pos + data.length + j)))] := by
  unfold diffStep
  rw [if_pos hne, h]
  simp only [if_pos hnear]

theorem diffStep_of_far (a b : ByteGrid) (hs : List DiffHunk) (i pos : Nat)
    (data : List Nat) (hne : a.get i ≠ b.get i)
    (h : hs.getLast? = some (.Seq pos data)) (hfar : ¬(i - (pos + data.length) ≤ 3)) :
    diffStep a b hs i = hs ++ [.Seq i [b.get i]] := by
  unfold diffStep
  rw [if_pos hne, h]
  simp only [if_neg hfar]

theorem diffInv_push (a b : ByteGrid) (n : Nat) (hs : List DiffHunk)
    (hinv : DiffInv a b n hs) (hd : a.get n ≠ b.get n) :
    DiffInv a b (n + 1) (hs ++ [.Seq n [b.get n]]) := by
  obtain ⟨hne, hval, hend, hcov⟩ := hinv
  refine ⟨?_, ?_, ?_, ?_⟩
  · intro h hh
    rcases List.mem_append.mp hh with hh | hh
    · exact hne _ hh
    · simp only [List.mem_singleton] at hh
      subst hh
      simp [DiffHunk.data]
  · intro h hh k hk
    rcases List.mem_append.mp hh with hh | hh
    · exact hval _ hh k hk
    · simp only [List.mem_singleton] at hh
      subst hh
      simp only [DiffHunk.data, List.length_singleton] at hk
      have hk0 : k = 0 := by omega
      subst hk0
      simp [DiffHunk.data, DiffHunk.pos]
  · intro h hh
    rcases List.mem_append.mp hh with hh | hh
    · exact Nat.le_succ_of_le (hend _ hh)
    · simp only [List.mem_singleton] at hh
      subst hh
      simp [hunkEnd, DiffHunk.pos, DiffHunk.data]
  · intro j hj hdiff
    rcases Nat.lt_succ_iff_lt_or_eq.mp hj with hlt | rfl
    · rcases hcov j hlt hdiff with ⟨x, hx, hx1, hx2⟩
      exact ⟨x, List.mem_append_left _ hx, hx1, hx2⟩
    · refine ⟨_, List.mem_append_right _ (List.mem_singleton_self _), ?_, ?_⟩
      · simp [DiffHunk.pos]
      · simp [hunkEnd, DiffHunk.pos, DiffHunk.data]

theorem diffStep_inv (a b : ByteGrid) (n : Nat) (hs : List DiffHunk)
    (hinv : DiffInv a b n hs) : DiffInv a b (n + 1) (diffStep a b hs n) := by
  by_cases hd : a.get n = b.get n
  · rw [diffStep_of_eq a b hs n hd]
    obtain ⟨hne, hval, hend, hcov⟩ := hinv
    refine ⟨hne, hval, fun h hh => Nat.le_succ_of_le (hend h hh), fun j hj hdiff => ?_⟩
    rcases Nat.lt_succ_iff_lt_or_eq.mp hj with hlt | rfl
    · exact hcov j hlt hdiff
    · exact absurd hd hdiff
  · cases hgl : hs.getLast? with
    | none =>
      rw [diffStep_of_none a b hs n hd hgl]
      exact diffInv_push a b n hs hinv hd
    | some last =>
      obtain ⟨pos, data⟩ := last
      by_cases hnear : n - (pos + data.length) ≤ 3
      · rw [diffStep_of_near a b hs n pos data hd hgl hnear]
        obtain ⟨hne, hval, hend, hcov⟩ := hinv
        have hsplit : hs.dropLast ++ [DiffHunk.Seq pos data] = hs :=
          List.dropLast_append_getLast? _ hgl
        have hLmem : DiffHunk.Seq pos data ∈ hs := by
          rw [← hsplit]
          exact List.mem_append_right _ (List.mem_singleton_self _)
        have hLe : pos + data.length ≤ n := by
          have := hend _ hLmem
          simpa [hunkEnd, DiffHunk.pos, DiffHunk.data] using this
        set m := n + 1 - (pos + data.length) with hm
        set ext := (List.range m).map (fun j => b.get (pos + data.length + j)) with hext
        have hextlen : ext.length = m := by simp [hext]
        refine ⟨?_, ?_, ?_, ?_⟩
        · intro h hh
          rcases List.mem_append.mp hh with hh | hh
          · exact hne _ (List.mem_of_mem_dropLast hh)
          · simp only [List.mem_singleton] at hh
            subst hh
            have hdne : data ≠ [] := hne _ hLmem
            simp only [DiffHunk.data]
            intro hc
            exact hdne (List.append_eq_nil.mp hc).1
        · intro h hh k hk
          rcases List.mem_append.mp hh with hh | hh
          · exact hval _ (List.mem_of_mem_dropLast hh) k hk
          · simp only [List.mem_singleton] at hh
            subst hh
            simp only [DiffHunk.data, DiffHunk.pos, List.length_append, hextlen] at hk ⊢
            by_cases hsmall : k < data.length
            · rw [List.getD_append _ _ _ _ hsmall]
              exact hval _ hLmem k hsmall
            · rw [List.getD_append_right _ _ _ _ (by omega), hext,
                getD_map_range _ m (k - data.length) (by omega)]
              congr 1
              omega
        · intro h hh
          rcases List.mem_append.mp hh with hh | hh
          · exact Nat.le_succ_of_le (hend _ (List.mem_of_mem_dropLast hh))
          · simp only [List.mem_singleton] at hh
            subst hh
            simp only [hunkEnd, DiffHunk.pos, DiffHunk.data, List.length_append, hextlen]
            omega
        · intro j hj hdiff
          rcases Nat.lt_succ_iff_lt_or_eq.mp hj with hlt | rfl
          · rcases hcov j hlt hdiff with ⟨x, hx, hx1, hx2⟩
            rw [← hsplit] at hx
            rcases List.mem_append.mp hx with hx | hx
            · exact ⟨x, List.mem_append_left _ hx, hx1, hx2⟩
            · simp only [List.mem_singleton] at hx
              subst hx
              refine ⟨_, List.mem_append_right _ (List.mem_singleton_self _), ?_, ?_⟩
              · simpa [DiffHunk.pos] using hx1
              · simp only [hunkEnd, DiffHunk.pos, DiffHunk.data] at hx2
                simp only [hunkEnd, DiffHunk.pos, DiffHunk.data, List.length_append, hextlen]
                omega
          · refine ⟨_, List.mem_append_right _ (List.mem_singleton_self _), ?_, ?_⟩
            · simp only [DiffHunk.pos]
              omega
            · simp only [hunkEnd, DiffHunk.pos, DiffHunk.data, List.length_append, hextlen]
              omega
      · rw [diffStep_of_far a b hs n pos data hd hgl hnear]
        exact diffInv_push a b n hs hinv hd

theorem diff_inv (a b : ByteGrid) :
    ∀ n, DiffInv a b n ((List.range n).foldl (diffStep a b) []) := by
  intro n
  induction n with
  | zero =>
    refine ⟨by simp, by simp, by simp, fun j hj => absurd hj (by omega)⟩
  | succ p ih =>
    rw [List.range_succ, List.foldl_append]
    simp only [List.foldl_cons, List.foldl_nil]
    exact diffStep_inv a b p _ ih

end ByteGrid

namespace ByteGrid

/-- On the pair (all-zero, all-one) every address differs, so the scan of
`Grid::diff` merges everything into one single hunk of length 65536. -/
theorem diff_allones :
    (ByteGrid.diff (fun _ => 0) (fun _ => 1)).hunks
      = [DiffHunk.Seq 0 (List.replicate 65536 1)] := by
  have hget0 : ∀ i, (ByteGrid.get (fun _ => 0) i) = 0 := fun i => by
    simp [ByteGrid.get]
  have hget1 : ∀ i, (ByteGrid.get (fun _ => 1) i) = 1 := fun i => by
    simp [ByteGrid.get]
  have key : ∀ n, 1 ≤ n →
      (List.range n).foldl (ByteGrid.diffStep (fun _ => 0) (fun _ => 1)) []
        = [DiffHunk.Seq 0 (List.replicate n 1)] := by
    intro n
    induction n with
    | zero => omega
    | succ p ih =>
      intro _
      by_cases hp : p = 0
      · subst hp
        have h0 : List.range 1 = [0] := rfl
        rw [h0]
        simp only [List.foldl_cons, List.foldl_nil]
        rw [ByteGrid.diffStep_of_none (fun _ => 0) (fun _ => 1) [] 0
          (by rw [hget0, hget1]; omega) rfl]
        rw [hget1]
        rfl
      · have hp1 : 1 ≤ p := by omega
        rw [List.range_succ, List.foldl_append]
        simp only [List.foldl_cons, List.foldl_nil]
        rw [ih hp1]
        rw [ByteGrid.diffStep_of_near (fun _ => 0) (fun _ => 1)
          [DiffHunk.Seq 0 (List.replicate p 1)] p 0 (List.replicate p 1)
          (by rw [hget0, hget1]; omega) (by simp)
          (by simp only [List.length_replicate]; omega)]
        simp only [List.dropLast_single, List.nil_append, List.length_replicate,
          Nat.zero_add]
        have h1 : p + 1 - p = 1 := by omega
        rw [h1]
        have h2 : (List.range 1).map (fun j => ByteGrid.get (fun _ => 1) (p + j)) = [1] := by
          simp [hget1]
        rw [h2, ← List.replicate_succ' p 1]
  rw [ByteGrid.diff_hunks_eq, ByteGrid.diffHunks_eq]
  exact key 65536 (by omega)

end ByteGrid

/-- **C1**: for every pair of byte grids `A` and `B`, applying the diff of
`A` against `B` to a copy of `A` yields a grid value-wise equal to `B`
over all 65536 cells: `patch(A.clone(), diff(A,B)) == B`. -/
theorem c1_diff_patch_roundtrip (A B : ByteGrid) :
    ByteGrid.gridEq (A.patch (A.diff B)) B := by
  intro j hj
  have hinv := ByteGrid.diff_inv A B 65536
  rw [← ByteGrid.diffHunks_eq] at hinv
  obtain ⟨hne, hval, hend, hcov⟩ := hinv
  show ((A.diff B).hunks.foldl ByteGrid.patchHunk A).get j = B.get j
  rw [ByteGrid.diff_hunks_eq,
    ByteGrid.patch_get A B (ByteGrid.diffHunks A B) j hj hval hend]
  by_cases hc : ∃ h ∈ ByteGrid.diffHunks A B, h.pos ≤ j ∧ j < hunkEnd h
  · rw [if_pos hc]
  · rw [if_neg hc]
    by_contra hdiff
    exact hc (hcov j hj hdiff)

/-- Witness for C1 at a concrete pair of grids. -/
theorem c1_diff_patch_roundtrip_witness :
    ByteGrid.gridEq
      (ByteGrid.patch (fun _ => 0) (ByteGrid.diff (fun _ => 0) (fun _ => 1)))
      (fun _ => 1) :=
  c1_diff_patch_roundtrip (fun _ => 0) (fun _ => 1)

/-- Counterexample to **C4** as stated: on the concrete pair of grids
(all-zero, all-one), `diff` produces a single in-memory hunk whose data
length is 65536, far above 256. -/
theorem c4_counterexample :
    ¬ (∀ h ∈ (ByteGrid.diff (fun _ => 0) (fun _ => 1)).hunks,
        1 ≤ h.data.length ∧ h.data.length ≤ 256) := by
  intro hcl
  have hm : DiffHunk.Seq 0 (List.replicate 65536 1)
      ∈ (ByteGrid.diff (fun _ => 0) (fun _ => 1)).hunks := by
    rw [ByteGrid.diff_allones]
    exact List.mem_singleton_self _
  have := (hcl _ hm).2
  simp only [DiffHunk.data, List.length_replicate] at this
  omega

/-- **C4** (amended): every hunk of the in-memory `ByteGridDiff` produced
by `diff(A,B)` has a data length between 1 and 65536 inclusive; the range
[1,256] of the claim applies to the serialized fragments, not to the
in-memory hunks. -/
theorem c4_diff_hunk_len (A B : ByteGrid) (h : DiffHunk)
    (hmem : h ∈ (A.diff B).hunks) :
    1 ≤ h.data.length ∧ h.data.length ≤ 65536 := by
  have hinv := ByteGrid.diff_inv A B 65536
  rw [← ByteGrid.diffHunks_eq] at hinv
  obtain ⟨hne, hval, hend, hcov⟩ := hinv
  rw [ByteGrid.diff_hunks_eq] at hmem
  constructor
  · have h1 := hne h hmem
    have h2 : 0 < h.data.length := List.length_pos.mpr h1
    omega
  · have h3 := hend h hmem
    unfold hunkEnd at h3
    omega

/-- Witness for C4 (amended) at the concrete all-zero / all-one pair. -/
theorem c4_diff_hunk_len_witness :
    DiffHunk.Seq 0 (List.replicate 65536 1)
        ∈ (ByteGrid.diff (fun _ => 0) (fun _ => 1)).hunks
    ∧ (1 ≤ (DiffHunk.Seq 0 (List.replicate 65536 1)).data.length
       ∧ (DiffHunk.Seq 0 (List.replicate 65536 1)).data.length ≤ 65536) := by
  have hm : DiffHunk.Seq 0 (List.replicate 65536 1)
      ∈ (ByteGrid.diff (fun _ => 0) (fun _ => 1)).hunks := by
    rw [ByteGrid.diff_allones]
    exact List.mem_singleton_self _
  exact ⟨hm, c4_diff_hunk_len (fun _ => 0) (fun _ => 1) _ hm⟩

theorem chunks256_flatten (l : List Nat) : (chunks256 l).flatten = l := by
  induction l using chunks256.induct with
  | case1 => simp [chunks256]
  | case2 l hl ih =>
    rw [chunks256, dif_neg hl]
    simp only [List.flatten_cons, ih, List.take_append_drop]

theorem chunks256_len (l : List Nat) :
    ∀ c ∈ chunks256 l, 1 ≤ c.length ∧ c.length ≤ 256 := by
  induction l using chunks256.induct with
  | case1 => simp [chunks256]
  | case2 l hl ih =>
    rw [chunks256, dif_neg hl]
    intro c hc
    rcases List.mem_cons.mp hc with rfl | hc
    · have : 0 < l.length := List.length_pos.mpr hl
      simp only [List.length_take]
      omega
    · exact ih c hc

/-- The hunks `deserialize` reads back from the serialized fragments of
one in-memory hunk starting at `pos`. -/
def fragHunks (pos : Nat) : List (List Nat) → List DiffHunk
  | [] => []
  | f :: fs => DiffHunk.Seq (pos % 65536) f :: fragHunks (pos + f.length) fs

theorem fragAddr (pos : Nat) :
    pos % 256 % 256 + (pos >>> 8) % 256 % 256 * 256 = pos % 65536 := by
  rw [Nat.shiftRight_eq_div_pow]
  have h8 : (2 : Nat) ^ 8 = 256 := by norm_num
  rw [h8]
  omega

theorem deserializeRec_serializeFrom (frags : List (List Nat)) :
    ∀ pos rest, (∀ f ∈ frags, 1 ≤ f.length ∧ f.length ≤ 256) →
    deserializeRec (serializeFrom pos frags ++ rest)
      = (deserializeRec rest).map (fun hs => fragHunks pos frags ++ hs) := by
  induction frags with
  | nil =>
    intro pos rest _
    simp only [serializeFrom, List.nil_append, fragHunks]
    cases h : deserializeRec rest <;> simp [Except.map]
  | cons f fs ih =>
    intro pos rest hwf
    obtain ⟨hf1, hf256⟩ := hwf f (List.mem_cons_self _ _)
    have hfne : f ≠ [] := by
      intro hc
      rw [hc] at hf1
      simp at hf1
    simp only [serializeFrom, List.cons_append, List.append_assoc]
    rw [deserializeRec]
    rw [if_neg (by simp [hfne])]
    have hlen : (f.length - 1) % 256 % 256 + 1 = f.length := by omega
    simp only [hlen, fragAddr]
    rw [if_pos (by simp only [List.length_append]; omega)]
    rw [List.take_left, List.drop_left]
    rw [ih (pos + f.length) rest (fun x hx => hwf x (List.mem_cons_of_mem _ hx))]
    cases h : deserializeRec rest <;> simp [Except.map, fragHunks]

theorem serialize_eq (d : ByteGridDiff) :
    d.serialize = (d.hunks.map (fun h => serializeFrom h.pos (chunks256 h.data))).flatten := by
  have gen : ∀ (l : List DiffHunk) (acc : List Nat),
      l.foldl (fun acc h => acc ++ serializeFrom h.pos (chunks256 h.data)) acc
        = acc ++ (l.map (fun h => serializeFrom h.pos (chunks256 h.data))).flatten := by
    intro l
    induction l with
    | nil => intro acc; simp
    | cons h t ih =>
      intro acc
      simp only [List.foldl_cons, List.map_cons, List.flatten_cons, ih, List.append_assoc]
  unfold ByteGridDiff.serialize
  rw [gen]
  simp

/-- The hunks `deserialize` reads back for one in-memory hunk. -/
def fragOf (h : DiffHunk) : List DiffHunk := fragHunks h.pos (chunks256 h.data)

theorem deserializeRec_serialize (hs : List DiffHunk) :
    deserializeRec ((hs.map (fun h => serializeFrom h.pos (chunks256 h.data))).flatten)
      = Except.ok ((hs.map fragOf).flatten) := by
  induction hs with
  | nil => simp [deserializeRec]
  | cons h t ih =>
    simp only [List.map_cons, List.flatten_cons]
    rw [deserializeRec_serializeFrom _ _ _ (chunks256_len _), ih]
    simp [Except.map, fragOf]

theorem fragHunks_cover (frags : List (List Nat)) :
    ∀ pos j, pos + (frags.map List.length).sum ≤ 65536 →
    ((∃ fh ∈ fragHunks pos frags, fh.pos ≤ j ∧ j < hunkEnd fh) ↔
      (pos ≤ j ∧ j < pos + (frags.map List.length).sum)) := by
  induction frags with
  | nil =>
    intro pos j _
    simp only [fragHunks, List.map_nil, List.sum_nil]
    constructor
    · rintro ⟨fh, hmem, -⟩
      simp at hmem
    · intro hj
      omega
  | cons f fs ih =>
    intro pos j hle
    simp only [List.map_cons, List.sum_cons] at hle ⊢
    constructor
    · rintro ⟨fh, hmem, h1, h2⟩
      rcases List.mem_cons.mp hmem with rfl | hmem
      · simp only [DiffHunk.pos, hunkEnd, DiffHunk.data] at h1 h2
        omega
      · have := (ih (pos + f.length) j (by omega)).mp ⟨fh, hmem, h1, h2⟩
        omega
    · intro hj
      by_cases hcase : j < pos + f.length
      · refine ⟨DiffHunk.Seq (pos % 65536) f, List.mem_cons_self _ _, ?_, ?_⟩
        · simp only [DiffHunk.pos]
          omega
        · simp only [hunkEnd, DiffHunk.pos, DiffHunk.data]
          omega
      · have := (ih (pos + f.length) j (by omega)).mpr ⟨by omega, by omega⟩
        rcases this with ⟨fh, hmem, h1, h2⟩
        exact ⟨fh, List.mem_cons_of_mem _ hmem, h1, h2⟩

theorem fragHunks_vals (b : ByteGrid) (frags : List (List Nat)) :
    ∀ pos, pos + (frags.map List.length).sum ≤ 65536 →
    (∀ k, k < frags.flatten.length → frags.flatten.getD k 0 = b.get (pos + k)) →
    ∀ fh ∈ fragHunks pos frags,
      (∀ k, k < fh.data.length → fh.data.getD k 0 = b.get (fh.pos + k))
      ∧ hunkEnd fh ≤ 65536 := by
  induction frags with
  | nil =>
    intro pos _ _ fh hmem
    simp [fragHunks] at hmem
  | cons f fs ih =>
    intro pos hle hvals fh hmem
    simp only [List.map_cons, List.sum_cons] at hle
    simp only [List.flatten_cons] at hvals
    rcases List.mem_cons.mp hmem with rfl | hmem
    · constructor
      · intro k hk
        simp only [DiffHunk.data, DiffHunk.pos] at hk ⊢
        have hofs : k < (f ++ fs.flatten).length := by
          simp only [List.length_append]
          omega
        have hv := hvals k hofs
        rw [List.getD_append _ _ _ _ hk] at hv
        rw [hv]
        have hp : pos % 65536 = pos := Nat.mod_eq_of_lt (by omega)
        rw [hp]
      · simp only [hunkEnd, DiffHunk.pos, DiffHunk.data]
        omega
    · refine ih (pos + f.length) (by omega) ?_ fh hmem
      intro k hk
      have hofs : f.length + k < (f ++ fs.flatten).length := by
        simp only [List.length_append]
        omega
      have hv := hvals (f.length + k) hofs
      rw [List.getD_append_right _ _ _ _ (by omega)] at hv
      have h2 : f.length + k - f.length = k := by omega
      rw [h2] at hv
      rw [hv]
      congr 1
      omega

theorem chunks256_sum_len (l : List Nat) :
    ((chunks256 l).map List.length).sum = l.length := by
  rw [← List.length_flatten, chunks256_flatten]

/-- **C8**: for every pair of byte grids `A`, `B`, serializing `diff(A,B)`
to its binary form, deserializing those bytes and patching the result onto
a copy of `A` yields a grid value-wise equal to `B` — even when an
in-memory hunk is longer than 256 bytes and is chunked into several
on-wire fragments. -/
theorem c8_serialize_roundtrip (A B : ByteGrid) :
    ∃ d : ByteGridDiff,
      ByteGridDiff.deserialize ((A.diff B).serialize) = Except.ok d
      ∧ ByteGrid.gridEq (A.patch d) B := by
  have hinv := ByteGrid.diff_inv A B 65536
  rw [← ByteGrid.diffHunks_eq] at hinv
  obtain ⟨hne, hval, hend, hcov⟩ := hinv
  refine ⟨⟨((ByteGrid.diffHunks A B).map fragOf).flatten⟩, ?_, ?_⟩
  · unfold ByteGridDiff.deserialize
    rw [serialize_eq, ByteGrid.diff_hunks_eq, deserializeRec_serialize]
    rfl
  · intro j hj
    rw [ByteGrid.patch_mk]
    have hprops : ∀ fh ∈ ((ByteGrid.diffHunks A B).map fragOf).flatten,
        (∀ k, k < fh.data.length → fh.data.getD k 0 = B.get (fh.pos + k))
        ∧ hunkEnd fh ≤ 65536 := by
      intro fh hmem
      rcases List.mem_flatten.mp hmem with ⟨l, hl, hfh⟩
      rcases List.mem_map.mp hl with ⟨h, hh, rfl⟩
      obtain ⟨pos, data⟩ := h
      have hsum : pos + ((chunks256 data).map List.length).sum ≤ 65536 := by
        rw [chunks256_sum_len]
        have := hend _ hh
        simpa [hunkEnd, DiffHunk.pos, DiffHunk.data] using this
      have hvls : ∀ k, k < (chunks256 data).flatten.length →
          (chunks256 data).flatten.getD k 0 = B.get (pos + k) := by
        intro k hk
        rw [chunks256_flatten] at hk ⊢
        have := hval _ hh k (by simpa [DiffHunk.data] using hk)
        simpa [DiffHunk.data, DiffHunk.pos] using this
      exact fragHunks_vals B (chunks256 data) pos hsum hvls fh
        (by simpa [fragOf, DiffHunk.pos, DiffHunk.data] using hfh)
    have hcoveq : (∃ fh ∈ ((ByteGrid.diffHunks A B).map fragOf).flatten,
          fh.pos ≤ j ∧ j < hunkEnd fh) ↔
        (∃ h ∈ ByteGrid.diffHunks A B, h.pos ≤ j ∧ j < hunkEnd h) := by
      constructor
      · rintro ⟨fh, hmem, hc⟩
        rcases List.mem_flatten.mp hmem with ⟨l, hl, hfh⟩
        rcases List.mem_map.mp hl with ⟨h, hh, rfl⟩
        obtain ⟨pos, data⟩ := h
        have hsum : pos + ((chunks256 data).map List.length).sum ≤ 65536 := by
          rw [chunks256_sum_len]
          have := hend _ hh
          simpa [hunkEnd, DiffHunk.pos, DiffHunk.data] using this
        have hcov1 := (fragHunks_cover (chunks256 data) pos j hsum).mp
          ⟨fh, by simpa [fragOf, DiffHunk.pos, DiffHunk.data] using hfh, hc⟩
        rw [chunks256_sum_len] at hcov1
        refine ⟨DiffHunk.Seq pos data, hh, ?_, ?_⟩
        · simp only [DiffHunk.pos]
          exact hcov1.1
        · simp only [hunkEnd, DiffHunk.pos, DiffHunk.data]
          exact hcov1.2
      · rintro ⟨h, hh, hc⟩
        obtain ⟨pos, data⟩ := h
        have hsum : pos + ((chunks256 data).map List.length).sum ≤ 65536 := by
          rw [chunks256_sum_len]
          have := hend _ hh
          simpa [hunkEnd, DiffHunk.pos, DiffHunk.data] using this
        have hc2 : pos ≤ j ∧ j < pos + ((chunks256 data).map List.length).sum := by
          rw [chunks256_sum_len]
          simpa [DiffHunk.pos, hunkEnd, DiffHunk.data] using hc
        rcases (fragHunks_cover (chunks256 data) pos j hsum).mpr hc2 with ⟨fh, hfh, hc3⟩
        refine ⟨fh, ?_, hc3⟩
        exact List.mem_flatten.mpr ⟨fragOf (DiffHunk.Seq pos data),
          List.mem_map.mpr ⟨_, hh, rfl⟩,
          by simpa [fragOf, DiffHunk.pos, DiffHunk.data] using hfh⟩
    rw [ByteGrid.patch_get A B _ j hj (fun fh hm k hk => (hprops fh hm).1 k hk)
        (fun fh hm => (hprops fh hm).2)]
    by_cases hc : ∃ h ∈ ByteGrid.diffHunks A B, h.pos ≤ j ∧ j < hunkEnd h
    · rw [if_pos (hcoveq.mpr hc)]
    · rw [if_neg (fun hx => hc (hcoveq.mp hx))]
      by_contra hdiff
      exact hc (hcov j hj hdiff)

/-- Witness for C8 at a concrete pair of grids. -/
theorem c8_serialize_roundtrip_witness :
    ∃ d : ByteGridDiff,
      ByteGridDiff.deserialize
          ((ByteGrid.diff (fun _ => 0) (fun _ => 1)).serialize) = Except.ok d
      ∧ ByteGrid.gridEq (ByteGrid.patch (fun _ => 0) d) (fun _ => 1) :=
  c8_serialize_roundtrip (fun _ => 0) (fun _ => 1)

/-- Wire grammar of the diff binary format, following the spec: a sequence
of complete records `[addr_lo][addr_hi][len_minus_1][payload: len bytes]`
with `len = len_minus_1 + 1`, that consumes every input byte. -/
inductive DiffWire : List Nat → Prop
  | nil : DiffWire []
  | record (lo hi lm1 : Nat) (payload rest : List Nat)
      (hlen : payload.length = lm1 + 1) (h : DiffWire rest) :
      DiffWire (lo :: hi :: lm1 :: (payload ++ rest))

theorem DiffWire.inv {d : List Nat} (h : DiffWire d) :
    d = [] ∨ ∃ lo hi lm1 payload rest, payload.length = lm1 + 1 ∧ DiffWire rest ∧
      d = lo :: hi :: lm1 :: (payload ++ rest) := by
  cases h with
  | nil => exact Or.inl rfl
  | record lo hi lm1 payload rest hlen hrest =>
    exact Or.inr ⟨lo, hi, lm1, payload, rest, hlen, hrest, rfl⟩

theorem deserializeRec_cons (lo hi lm1 : Nat) (rest : List Nat) (hrest : rest ≠ [])
    (hle : lm1 % 256 + 1 ≤ rest.length) :
    deserializeRec (lo :: hi :: lm1 :: rest)
      = (deserializeRec (rest.drop (lm1 % 256 + 1))).map
          (fun hs => DiffHunk.Seq (lo % 256 + (hi % 256) * 256)
            (rest.take (lm1 % 256 + 1)) :: hs) := by
  rw [deserializeRec]
  rw [if_neg hrest, if_pos hle]

theorem deserializeRec_cons_err (lo hi lm1 : Nat) (rest : List Nat) (hrest : rest ≠ [])
    (hnle : ¬ lm1 % 256 + 1 ≤ rest.length) :
    deserializeRec (lo :: hi :: lm1 :: rest) = Except.error () := by
  rw [deserializeRec, if_neg hrest, if_neg hnle]

theorem deserializeRec_ok_iff :
    ∀ d : List Nat, (∀ b ∈ d, b < 256) →
      ((∃ r, deserializeRec d = Except.ok r) ↔ DiffWire d) := by
  intro d
  induction d using deserializeRec.induct with
  | case1 =>
    intro _
    constructor
    · intro _
      exact DiffWire.nil
    · intro _
      exact ⟨[], by rw [deserializeRec]⟩
  | case2 lo hi lm1 =>
    intro _
    constructor
    · rintro ⟨r, hr⟩
      rw [deserializeRec] at hr
      simp at hr
    · intro hw
      rcases hw.inv with h0 | ⟨lo', hi', lm1', payload, rest, hlen, hrest, heq⟩
      · simp at h0
      · simp only [List.cons.injEq] at heq
        have : payload ++ rest = [] := heq.2.2.2.symm
        have hp : payload = [] := (List.append_eq_nil.mp this).1
        rw [hp] at hlen
        simp at hlen
  | case3 lo hi lm1 rest hrest len hle ih =>
    intro hbytes
    have hlm1 : lm1 < 256 := hbytes lm1 (by simp)
    have hmod : lm1 % 256 = lm1 := Nat.mod_eq_of_lt hlm1
    have hle2 : lm1 % 256 + 1 ≤ rest.length := hle
    have ih2 : (∀ b ∈ rest.drop (lm1 % 256 + 1), b < 256) →
        ((∃ r, deserializeRec (rest.drop (lm1 % 256 + 1)) = Except.ok r)
          ↔ DiffWire (rest.drop (lm1 % 256 + 1))) := ih
    have hsub : ∀ b ∈ rest.drop (lm1 % 256 + 1), b < 256 := fun b hb =>
      hbytes b (by
        simp only [List.mem_cons]
        right; right; right
        exact List.mem_of_mem_drop hb)
    constructor
    · rintro ⟨r, hr⟩
      rw [deserializeRec_cons lo hi lm1 rest hrest hle2] at hr
      have hok : ∃ r', deserializeRec (rest.drop (lm1 % 256 + 1)) = Except.ok r' := by
        cases hd : deserializeRec (rest.drop (lm1 % 256 + 1)) with
        | ok v => exact ⟨v, rfl⟩
        | error e =>
          rw [hd] at hr
          simp [Except.map] at hr
      have hw := (ih2 hsub).mp hok
      have hrec := DiffWire.record lo hi lm1 (rest.take (lm1 % 256 + 1))
        (rest.drop (lm1 % 256 + 1))
        (by
          rw [List.length_take]
          omega)
        hw
      rwa [List.take_append_drop] at hrec
    · intro hw
      rcases hw.inv with h0 | ⟨lo', hi', lm1', payload, rest', hlen, hrest', heq⟩
      · simp at h0
      · simp only [List.cons.injEq] at heq
        obtain ⟨-, -, hlm, hr⟩ := heq
        rw [deserializeRec_cons lo hi lm1 rest hrest hle2]
        have hdrop : rest.drop (lm1 % 256 + 1) = rest' := by
          rw [hr, hmod, hlm, ← hlen, List.drop_left]
        have hwd : DiffWire (rest.drop (lm1 % 256 + 1)) := by
          rw [hdrop]
          exact hrest'
        rcases (ih2 hsub).mpr hwd with ⟨r', hr'⟩
        rw [hr']
        exact ⟨_, rfl⟩
  | case4 lo hi lm1 rest hrest len hnle =>
    intro hbytes
    have hlm1 : lm1 < 256 := hbytes lm1 (by simp)
    have hmod : lm1 % 256 = lm1 := Nat.mod_eq_of_lt hlm1
    have hnle2 : ¬ (lm1 % 256 + 1 ≤ rest.length) := hnle
    constructor
    · rintro ⟨r, hr⟩
      rw [deserializeRec_cons_err lo hi lm1 rest hrest hnle2] at hr
      simp at hr
    · intro hw
      rcases hw.inv with h0 | ⟨lo', hi', lm1', payload, rest', hlen, hrest', heq⟩
      · simp at h0
      · simp only [List.cons.injEq] at heq
        obtain ⟨-, -, hlm, hr⟩ := heq
        exfalso
        apply hnle2
        rw [hr, hmod, hlm, ← hlen, List.length_append]
        omega
  | case5 head tail htail =>
    intro _
    constructor
    · rintro ⟨r, hr⟩
      rw [deserializeRec.eq_def] at hr
      rcases tail with - | ⟨a, tl⟩
      · simp at hr
      · rcases tl with - | ⟨b, tl'⟩
        · simp at hr
        · exact (htail a b tl' rfl).elim
    · intro hw
      rcases hw.inv with h0 | ⟨lo', hi', lm1', payload, rest', hlen, hrest', heq⟩
      · simp at h0
      · simp only [List.cons.injEq] at heq
        exact absurd heq.2 (by
          intro hc
          exact htail hi' lm1' (payload ++ rest') hc)

/-- **C9**: `ByteGridDiff::deserialize(data)` returns `Ok` exactly when the
input parses as a sequence of complete records
`[addr_lo, addr_hi, len_minus_1, payload of len bytes]` consuming every
byte; otherwise — 1 to 3 bytes left over after the last complete record,
or a declared payload running past the end — it returns the recoverable
format error (the model is a total function into `Except`, never a
panic). -/
theorem c9_deserialize_ok_iff (d : List Nat) (hbytes : ∀ b ∈ d, b < 256) :
    ((∃ r, ByteGridDiff.deserialize d = Except.ok r) ↔ DiffWire d)
    ∧ (¬ DiffWire d → ByteGridDiff.deserialize d = Except.error ()) := by
  have hcore := deserializeRec_ok_iff d hbytes
  constructor
  · constructor
    · rintro ⟨r, hr⟩
      apply hcore.mp
      unfold ByteGridDiff.deserialize at hr
      cases hd : deserializeRec d with
      | ok v => exact ⟨v, rfl⟩
      | error e =>
        rw [hd] at hr
        simp [Except.map] at hr
    · intro hw
      rcases hcore.mpr hw with ⟨r, hr⟩
      refine ⟨⟨r⟩, ?_⟩
      unfold ByteGridDiff.deserialize
      rw [hr]
      rfl
  · intro hnw
    unfold ByteGridDiff.deserialize
    cases hd : deserializeRec d with
    | ok v => exact absurd (hcore.mp ⟨v, hd⟩) hnw
    | error e =>
      cases e
      rfl

/-- Witness for C9 at a concrete byte stream (one complete record). -/
theorem c9_deserialize_ok_iff_witness :
    ((∃ r, ByteGridDiff.deserialize [1, 2, 0, 9] = Except.ok r) ↔ DiffWire [1, 2, 0, 9])
    ∧ (¬ DiffWire [1, 2, 0, 9] →
        ByteGridDiff.deserialize [1, 2, 0, 9] = Except.error ()) :=
  c9_deserialize_ok_iff [1, 2, 0, 9] (by decide)

/-- **C2**: `effective_value(page, P)` is the stored byte OR'd with the
player mask when the player stands at `P`, and the raw stored byte at any
other position; `get_register_effective(i, player, mask)` ORs in the mask
exactly when the player's position is `Register(i)`. -/
theorem c2_effective_value_overlay (s : GamePlayState) (page : PageState) (P Q : V2)
    (hP : s.player = .Pos P) (hQ : Q ≠ P)
    (c : CPU) (i : Nat) (pp : PlayerPos) (mask : Nat) :
    s.effective_value page P = page.memory.getV2 P ||| s.player_mask
    ∧ s.effective_value page Q = page.memory.getV2 Q
    ∧ (pp = .Register i → c.get_register_effective i pp mask = c.registers i ||| mask)
    ∧ (pp ≠ .Register i → c.get_register_effective i pp mask = c.registers i) := by
  refine ⟨?_, ?_, ?_, ?_⟩
  · unfold GamePlayState.effective_value
    rw [hP, if_pos rfl]
  · unfold GamePlayState.effective_value
    rw [hP, if_neg (fun hc => hQ (PlayerPos.Pos.inj hc).symm)]
  · intro hpp
    subst hpp
    unfold CPU.get_register_effective
    show (if i = i then c.registers i ||| mask else c.registers i) = c.registers i ||| mask
    rw [if_pos rfl]
  · intro hpp
    unfold CPU.get_register_effective
    cases pp with
    | Pos v => rfl
    | Register r =>
      show (if r = i then c.registers i ||| mask else c.registers i) = c.registers i
      rw [if_neg (fun hc => hpp (by rw [hc]))]

/-- Witness for C2 at a concrete state, page and positions. -/
theorem c2_effective_value_overlay_witness :
    (let s : GamePlayState :=
      { player := .Pos ⟨0, 0⟩, player_page := 0x42, player_offset := 6,
        pages := fun _ => none, cpu := CPU.new,
        visited_pages := fun _ => false,
        game_rules := ⟨.Block, true, true, .Always⟩,
        null_page := PageState.new,
        page_instruction_executed := false, end_of_level := false }
    let page : PageState := ⟨fun _ => 7, fun _ => none⟩
    s.effective_value page ⟨0, 0⟩ = page.memory.getV2 ⟨0, 0⟩ ||| s.player_mask
    ∧ s.effective_value page ⟨1, 0⟩ = page.memory.getV2 ⟨1, 0⟩
    ∧ (PlayerPos.Register 2 = .Register 2 →
        CPU.new.get_register_effective 2 (.Register 2) 64 = CPU.new.registers 2 ||| 64)
    ∧ (PlayerPos.Register 2 ≠ .Register 1 →
        CPU.new.get_register_effective 1 (.Register 2) 64 = CPU.new.registers 1)) := by
  intro s page
  have h1 := c2_effective_value_overlay s page ⟨0, 0⟩ ⟨1, 0⟩ rfl (by decide)
    CPU.new 2 (.Register 2) 64
  have h2 := c2_effective_value_overlay s page ⟨0, 0⟩ ⟨1, 0⟩ rfl (by decide)
    CPU.new 1 (.Register 2) 64
  exact ⟨h1.1, h1.2.1, fun _ => h1.2.2.1 rfl, fun _ => h2.2.2.2 (by decide)⟩

/-- **C7**: movement wrap facts.  From `(0,0)` moving Up, Block stays,
WrapLine wraps the y axis alone, WrapGrid wraps the whole packed 16-bit
address; in WrapGrid mode every step is the 16-bit wrapping sum of the
packed position with +1 (Down), -1 = +0xffff (Up), +0x100 (Right),
-0x100 = +0xff00 (Left), so stepping Down off y = 255 carries into x
while WrapLine wraps each axis independently. -/
theorem c7_wrap_modes :
    step ⟨0, 0⟩ .Up .Block = ⟨0, 0⟩
    ∧ step ⟨0, 0⟩ .Up .WrapLine = ⟨0, 255⟩
    ∧ step ⟨0, 0⟩ .Up .WrapGrid = ⟨255, 255⟩
    ∧ (∀ (p : V2) (d : MoveDir),
        step p d .WrapGrid = splitu16 ((joinu8 (u8ofInt p.x) (u8ofInt p.y) +
          (match d with
           | .Down => 0x0001
           | .Up => 0xffff
           | .Right => 0x0100
           | .Left => 0xff00)) % 65536))
    ∧ step ⟨5, 255⟩ .Down .WrapGrid = ⟨6, 0⟩
    ∧ step ⟨5, 255⟩ .Down .WrapLine = ⟨5, 0⟩ := by
  refine ⟨by decide, by decide, by decide, ?_, by decide, by decide⟩
  intro p d
  unfold step
  rw [if_pos rfl]
  cases d <;> rfl

theorem get_register_effective_r_pc (c : CPU) (p : Nat) (id : RegisterId)
    (pp : PlayerPos) (m : Nat) :
    ({ c with pc := p } : CPU).get_register_effective_r id pp m
      = c.get_register_effective_r id pp m := rfl

theorem set_register_get (c : CPU) (id : RegisterId) (v : Nat) :
    (c.set_register id v).registers id.toNat = v % 256 := by
  unfold CPU.set_register
  simp

/-- **C5**: executing `Compare(v)` writes 0 / 1 / 0xFF to the Compare
register according to whether the effective Data value is equal, greater
or less than `v`; `JumpEqual` jumps iff the effective Compare value is 0,
`JumpGreater` iff it is 1, and `JumpLess` iff it is numerically `> 1` (so
a less-than outcome 0xFF is caught only because 0xFF > 1). -/
theorem c5_compare_and_jumps (s : GamePlayState) :
    (∀ v, s.read_instruction s.cpu.pc
          (s.cpu.get_register_effective_r .Page s.player s.player_mask) = .Compare v →
        (s.step_cpu).cpu.registers 2 =
          (if s.cpu.get_register_effective_r .Data s.player s.player_mask > v then 1
           else if s.cpu.get_register_effective_r .Data s.player s.player_mask < v then 255
           else 0))
    ∧ (∀ t, s.read_instruction s.cpu.pc
          (s.cpu.get_register_effective_r .Page s.player s.player_mask) = .JumpEqual t →
        (s.step_cpu).cpu.pc =
          if s.cpu.get_register_effective_r .Compare s.player s.player_mask = 0 then t
          else if s.cpu.pc + 1 ≤ 0xffff then s.cpu.pc + 1 else s.cpu.pc)
    ∧ (∀ t, s.read_instruction s.cpu.pc
          (s.cpu.get_register_effective_r .Page s.player s.player_mask) = .JumpGreater t →
        (s.step_cpu).cpu.pc =
          if s.cpu.get_register_effective_r .Compare s.player s.player_mask = 1 then t
          else if s.cpu.pc + 1 ≤ 0xffff then s.cpu.pc + 1 else s.cpu.pc)
    ∧ (∀ t, s.read_instruction s.cpu.pc
          (s.cpu.get_register_effective_r .Page s.player s.player_mask) = .JumpLess t →
        (s.step_cpu).cpu.pc =
          if s.cpu.get_register_effective_r .Compare s.player s.player_mask > 1 then t
          else if s.cpu.pc + 1 ≤ 0xffff then s.cpu.pc + 1 else s.cpu.pc) := by
  refine ⟨?_, ?_, ?_, ?_⟩
  · intro v hinstr
    simp only [GamePlayState.step_cpu]
    rw [hinstr]
    dsimp only
    rw [get_register_effective_r_pc]
    split_ifs with h1 h2 <;>
      simp [set_register_get, RegisterId.toNat, CPU.set_register]
  · intro t hinstr
    simp only [GamePlayState.step_cpu]
    rw [hinstr]
    dsimp only
    rw [get_register_effective_r_pc]
    split_ifs with h1 <;> rfl
  · intro t hinstr
    simp only [GamePlayState.step_cpu]
    rw [hinstr]
    dsimp only
    rw [get_register_effective_r_pc]
    split_ifs with h1 <;> rfl
  · intro t hinstr
    simp only [GamePlayState.step_cpu]
    rw [hinstr]
    dsimp only
    rw [get_register_effective_r_pc]
    split_ifs with h1 <;> rfl

/-- A small concrete state whose program cell holds `Compare(7)` and whose
effective Data value is 0. -/
def c5demo : GamePlayState :=
  { player := .Pos ⟨5, 5⟩, player_page := 0, player_offset := 6,
    pages := fun pid =>
      if pid = 0 then
        some ⟨fun a => if a = 0 then 99 else if a = 256 then 7 else 0, fun _ => none⟩
      else none,
    cpu := CPU.new, visited_pages := fun _ => false,
    game_rules := ⟨.Block, true, true, .Always⟩, null_page := PageState.new,
    page_instruction_executed := false, end_of_level := false }

/-- Witness for C5: on `c5demo` the fetched instruction is `Compare 7` and
the executed step writes 0xFF (less-than) into the Compare register. -/
theorem c5_compare_and_jumps_witness :
    c5demo.read_instruction c5demo.cpu.pc
        (c5demo.cpu.get_register_effective_r .Page c5demo.player c5demo.player_mask)
      = .Compare 7
    ∧ (c5demo.step_cpu).cpu.registers 2 = 255 := by
  have h := (c5_compare_and_jumps c5demo).1 7 (by decide)
  refine ⟨by decide, ?_⟩
  rw [h]
  decide

/-- **C3**: each `make_move` fetches and executes at most one CPU
instruction, executes one only when — after movement and trigger handling —
the player's page equals the effective Page register, and when the two
differ the instruction-execution phase leaves the whole CPU (program
counter and registers) unchanged. -/
theorem c3_cpu_step_gating (s : GamePlayState) (a : PlayerMove) :
    (s.make_moveF a).2.1 ≤ 1
    ∧ s.make_move a = (s.make_moveF a).1
    ∧ ((s.make_moveF a).2.1 = 1 →
        ((s.movePhase a).1.apply_triggers).player_page =
          ((s.movePhase a).1.apply_triggers).cpu.get_register_effective_r .Page
            ((s.movePhase a).1.apply_triggers).player
            ((s.movePhase a).1.apply_triggers).player_mask)
    ∧ (((s.movePhase a).1.apply_triggers).player_page ≠
          ((s.movePhase a).1.apply_triggers).cpu.get_register_effective_r .Page
            ((s.movePhase a).1.apply_triggers).player
            ((s.movePhase a).1.apply_triggers).player_mask →
        (s.make_moveF a).2.1 = 0
        ∧ (s.make_move a).cpu = ((s.movePhase a).1.apply_triggers).cpu) := by
  unfold GamePlayState.make_move GamePlayState.make_moveF GamePlayState.apply_triggers
  dsimp only
  by_cases hcond : (s.movePhase a).2 = true ∧
      (s.movePhase a).1.apply_triggersF.1.player_page =
        (s.movePhase a).1.apply_triggersF.1.cpu.get_register_effective_r .Page
          (s.movePhase a).1.apply_triggersF.1.player
          (s.movePhase a).1.apply_triggersF.1.player_mask
  · simp only [if_pos hcond]
    exact ⟨by omega, by trivial, fun _ => hcond.2, fun hne => absurd hcond.2 hne⟩
  · simp only [if_neg hcond]
    exact ⟨by omega, by trivial, fun h0 => absurd h0 (by decide),
      fun _ => ⟨by trivial, by trivial⟩⟩

/-- Witness for C3 at a concrete state and action. -/
theorem c3_cpu_step_gating_witness :
    (c5demo.make_moveF (.Move .Right)).2.1 ≤ 1
    ∧ c5demo.make_move (.Move .Right) = (c5demo.make_moveF (.Move .Right)).1
    ∧ ((c5demo.make_moveF (.Move .Right)).2.1 = 1 →
        ((c5demo.movePhase (.Move .Right)).1.apply_triggers).player_page =
          ((c5demo.movePhase (.Move .Right)).1.apply_triggers).cpu.get_register_effective_r
            .Page ((c5demo.movePhase (.Move .Right)).1.apply_triggers).player
            ((c5demo.movePhase (.Move .Right)).1.apply_triggers).player_mask)
    ∧ (((c5demo.movePhase (.Move .Right)).1.apply_triggers).player_page ≠
          ((c5demo.movePhase (.Move .Right)).1.apply_triggers).cpu.get_register_effective_r
            .Page ((c5demo.movePhase (.Move .Right)).1.apply_triggers).player
            ((c5demo.movePhase (.Move .Right)).1.apply_triggers).player_mask →
        (c5demo.make_moveF (.Move .Right)).2.1 = 0
        ∧ (c5demo.make_move (.Move .Right)).cpu =
            ((c5demo.movePhase (.Move .Right)).1.apply_triggers).cpu) :=
  c3_cpu_step_gating c5demo (.Move .Right)

theorem rotate_page_cases (s : GamePlayState) :
    s.rotate_page = (s, false)
    ∨ ∃ p, s.rotate_page = ({ s with player_page := p }, false) := by
  unfold GamePlayState.rotate_page
  split
  · exact Or.inl rfl
  · cases hp : s.player with
    | Register r => exact Or.inl rfl
    | Pos v =>
      cases hf : (List.range' 1 255).find?
          (fun i => s.visited_pages ((s.player_page + i) % 256)) with
      | none => exact Or.inl rfl
      | some i => exact Or.inr ⟨(s.player_page + i) % 256, rfl⟩

/-- After `apply_triggers`, the program counter is unchanged unless an
active trigger at the player's position fired a `SetPC` effect. -/
theorem apply_triggersF_pc (s : GamePlayState) :
    s.apply_triggersF.1.cpu.pc = s.cpu.pc
    ∨ ∃ pos t a, s.player = .Pos pos
        ∧ s.getTrigger s.player_page (joinu16 pos) = some t
        ∧ t.is_active = true ∧ t.effect = .SetPC a
        ∧ s.apply_triggersF.1.cpu.pc = a := by
  unfold GamePlayState.apply_triggersF
  cases hp : s.player with
  | Register r => exact Or.inl rfl
  | Pos pos =>
    dsimp only
    cases hpg : s.pages s.player_page with
    | none => exact Or.inl rfl
    | some page =>
      dsimp only
      cases htr : page.triggers (joinu16 pos) with
      | none => exact Or.inl rfl
      | some trigger =>
        dsimp only
        by_cases hact : trigger.is_active = true
        · rw [if_neg (by simp [hact])]
          cases heff : trigger.effect with
          | SetPC addr =>
            right
            refine ⟨pos, trigger, addr, rfl, ?_, hact, heff, ?_⟩
            · unfold GamePlayState.getTrigger
              rw [hpg]
              exact htr
            · dsimp only
          | EndOfLevel => exact Or.inl rfl
          | Message m =>
            left
            dsimp only
            split <;> rfl
        · rw [if_pos (by simp [hact])]
          exact Or.inl rfl

/-- **C10**: `make_move(RotatePage)` never executes a CPU instruction
(`rotate_page` returns false on every path); a rotation changes only the
player's active page id and leaves the CPU — in particular the Page
register — untouched, and after a rotation the program counter can change
only through an active `SetPC` trigger at the player's unchanged position
on the newly selected page. -/
theorem c10_rotate_page (s : GamePlayState) :
    (s.rotate_page).2 = false
    ∧ (s.rotate_page).1.cpu = s.cpu
    ∧ (s.rotate_page).1.player = s.player
    ∧ (s.rotate_page).1.pages = s.pages
    ∧ (s.rotate_page).1.visited_pages = s.visited_pages
    ∧ (s.rotate_page).1.player_offset = s.player_offset
    ∧ (s.rotate_page).1.game_rules = s.game_rules
    ∧ (s.rotate_page).1.end_of_level = s.end_of_level
    ∧ (s.make_moveF .RotatePage).2.1 = 0
    ∧ (s.make_move .RotatePage).cpu = ((s.rotate_page).1.apply_triggersF).1.cpu
    ∧ ((s.make_move .RotatePage).cpu.pc ≠ s.cpu.pc →
        ∃ pos t a, s.player = .Pos pos
          ∧ (s.rotate_page).1.getTrigger (s.rotate_page).1.player_page (joinu16 pos)
              = some t
          ∧ t.is_active = true ∧ t.effect = .SetPC a
          ∧ (s.make_move .RotatePage).cpu.pc = a) := by
  have hframe : (s.rotate_page).2 = false ∧ (s.rotate_page).1.cpu = s.cpu
      ∧ (s.rotate_page).1.player = s.player
      ∧ (s.rotate_page).1.pages = s.pages
      ∧ (s.rotate_page).1.visited_pages = s.visited_pages
      ∧ (s.rotate_page).1.player_offset = s.player_offset
      ∧ (s.rotate_page).1.game_rules = s.game_rules
      ∧ (s.rotate_page).1.end_of_level = s.end_of_level := by
    rcases rotate_page_cases s with h | ⟨p, h⟩ <;> rw [h] <;>
      exact ⟨rfl, rfl, rfl, rfl, rfl, rfl, rfl, rfl⟩
  obtain ⟨hflag, hcpu, hplayer, hpages, hvis, hofs, hrules, heol⟩ := hframe
  have hcf : ¬((s.rotate_page).2 = true ∧
      (s.rotate_page).1.apply_triggersF.1.player_page =
        (s.rotate_page).1.apply_triggersF.1.cpu.get_register_effective_r .Page
          (s.rotate_page).1.apply_triggersF.1.player
          (s.rotate_page).1.apply_triggersF.1.player_mask) := by
    intro hc
    rw [hflag] at hc
    exact Bool.false_ne_true hc.1
  have hnostep : (s.make_moveF .RotatePage).2.1 = 0
      ∧ (s.make_move .RotatePage).cpu = ((s.rotate_page).1.apply_triggersF).1.cpu := by
    unfold GamePlayState.make_move GamePlayState.make_moveF GamePlayState.movePhase
    dsimp only
    rw [if_neg hcf, if_neg hcf]
    exact ⟨rfl, rfl⟩
  refine ⟨hflag, hcpu, hplayer, hpages, hvis, hofs, hrules, heol,
    hnostep.1, hnostep.2, ?_⟩
  intro hne
  rcases apply_triggersF_pc (s.rotate_page).1 with hsame |
    ⟨pos, t, a, hp, ht, hact, heff, hpc⟩
  · exfalso
    apply hne
    rw [hnostep.2, hsame, hcpu]
  · refine ⟨pos, t, a, ?_, ht, hact, heff, ?_⟩
    · rw [← hplayer]
      exact hp
    · rw [hnostep.2]
      exact hpc

/-- Concrete state for the rotation claims: page 7 was visited and holds a
one-time `SetPC` trigger exactly at the player's position. -/
def c10demo : GamePlayState :=
  { player := .Pos ⟨1, 0⟩, player_page := 5, player_offset := 6,
    pages := fun pid =>
      if pid = 7 then
        some ⟨fun _ => 0,
          fun k => if k = 256 then some ⟨⟨1, 0⟩, .SetPC 0x1010, true, false⟩ else none⟩
      else if pid = 5 then some ⟨fun _ => 0, fun _ => none⟩
      else none,
    cpu := CPU.new, visited_pages := fun pid => pid == 5 || pid == 7,
    game_rules := ⟨.Block, true, true, .Always⟩, null_page := PageState.new,
    page_instruction_executed := false, end_of_level := false }

/-- Witness for C10: on `c10demo`, rotating pages lands on page 7 whose
trigger rewrites the program counter. -/
theorem c10_rotate_page_witness :
    ∃ pos t a, c10demo.player = .Pos pos
      ∧ (c10demo.rotate_page).1.getTrigger (c10demo.rotate_page).1.player_page
          (joinu16 pos) = some t
      ∧ t.is_active = true ∧ t.effect = .SetPC a
      ∧ (c10demo.make_move .RotatePage).cpu.pc = a :=
  (c10_rotate_page c10demo).2.2.2.2.2.2.2.2.2.2 (by decide)

theorem movePhase_pages (s : GamePlayState) (a : PlayerMove) :
    (s.movePhase a).1.pages = s.pages := by
  cases a with
  | RotatePage =>
    rcases rotate_page_cases s with h | ⟨p, h⟩ <;>
      simp [GamePlayState.movePhase, h]
  | Move d =>
    unfold GamePlayState.movePhase GamePlayState.move_player
    cases hp : s.player with
    | Pos v =>
      dsimp only
      split <;> rfl
    | Register r =>
      dsimp only
      unfold GamePlayState.change_player_page
      cases d <;> split_ifs <;> rfl

theorem movePhase_getTrigger (s : GamePlayState) (a : PlayerMove) (pid k : Nat) :
    (s.movePhase a).1.getTrigger pid k = s.getTrigger pid k := by
  unfold GamePlayState.getTrigger
  rw [movePhase_pages]

theorem apply_triggersF_spec (s : GamePlayState) (pid k : Nat) :
    (s.apply_triggersF.2 = some (pid, k) →
       ∃ t, s.getTrigger pid k = some t ∧ t.is_active = true
         ∧ s.apply_triggersF.1.getTrigger pid k = some { t with triggered := true })
    ∧ (s.apply_triggersF.2 ≠ some (pid, k) →
       s.apply_triggersF.1.getTrigger pid k = s.getTrigger pid k) := by
  unfold GamePlayState.apply_triggersF
  cases hp : s.player with
  | Register r =>
    dsimp only
    exact ⟨fun hc => by simp at hc, fun _ => rfl⟩
  | Pos pos =>
    dsimp only
    cases hpg : s.pages s.player_page with
    | none =>
      dsimp only
      exact ⟨fun hc => by simp at hc, fun _ => rfl⟩
    | some page =>
      dsimp only
      cases htr : page.triggers (joinu16 pos) with
      | none =>
        dsimp only
        exact ⟨fun hc => by simp at hc, fun _ => rfl⟩
      | some trigger =>
        dsimp only
        by_cases hact : trigger.is_active = true
        · rw [if_neg (by simp [hact])]
          dsimp only
          have key : ∀ (x : GamePlayState), x.pages = Function.update s.pages s.player_page
                (some (PageState.mk page.memory (Function.update page.triggers (joinu16 pos)
                  (some (Trigger.mk trigger.pos trigger.effect trigger.one_time true))))) →
              ((some ((s.player_page : Nat), joinu16 pos) = some ((pid : Nat), k) →
                 ∃ t, s.getTrigger pid k = some t ∧ t.is_active = true
                   ∧ x.getTrigger pid k = some { t with triggered := true })
               ∧ (some ((s.player_page : Nat), joinu16 pos) ≠ some ((pid : Nat), k) →
                 x.getTrigger pid k = s.getTrigger pid k)) := by
            intro x hx
            constructor
            · intro hfire
              injection hfire with h1
              cases h1
              refine ⟨trigger, ?_, hact, ?_⟩
              · unfold GamePlayState.getTrigger
                rw [hpg]
                simp only [Option.some_bind]
                exact htr
              · unfold GamePlayState.getTrigger
                rw [hx, Function.update_same]
                simp only [Option.some_bind]
                rw [Function.update_same]
            · intro hne
              unfold GamePlayState.getTrigger
              rw [hx]
              by_cases hpid : pid = s.player_page
              · subst hpid
                rw [Function.update_same]
                simp only [Option.some_bind]
                have hk : k ≠ joinu16 pos := fun hkk => hne (by rw [hkk])
                rw [Function.update_noteq hk, hpg]
                simp only [Option.some_bind]
              · rw [Function.update_noteq (fun hc => hpid hc)]
          refine key _ ?_
          cases heff : trigger.effect with
          | SetPC addr =>
            dsimp only
            unfold GamePlayState.reset_registers
            split <;> rfl
          | EndOfLevel => rfl
          | Message m =>
            dsimp only
            split <;> rfl
        · rw [if_pos (by simp [hact])]
          dsimp only
          exact ⟨fun hc => by simp at hc, fun _ => rfl⟩

theorem step_cpu_getTrigger (s : GamePlayState) (pid k : Nat) :
    s.step_cpu.getTrigger pid k = s.getTrigger pid k := by
  unfold GamePlayState.step_cpu GamePlayState.change_cpu_page
    GamePlayState.change_player_page
  dsimp only
  cases hI : s.read_instruction s.cpu.pc
      (s.cpu.get_register_effective_r .Page s.player s.player_mask) with
  | Swap pos =>
    dsimp only
    cases hpg : s.pages (s.cpu.get_register_effective_r .Page s.player s.player_mask) with
    | none => rfl
    | some page =>
      dsimp only
      have hcommon : ∀ (x : GamePlayState),
          x.pages = Function.update s.pages
            (s.cpu.get_register_effective_r .Page s.player s.player_mask)
            (some (PageState.mk (page.memory.set pos (s.cpu.get_register .Data))
              page.triggers)) →
          x.getTrigger pid k = s.getTrigger pid k := by
        intro x hx
        unfold GamePlayState.getTrigger
        rw [hx]
        by_cases hpid : pid = s.cpu.get_register_effective_r .Page s.player s.player_mask
        · subst hpid
          rw [Function.update_same, hpg]
          simp only [Option.some_bind]
        · rw [Function.update_noteq (fun hc => hpid hc)]
      split_ifs <;> exact hcommon _ rfl
  | Jump target => rfl
  | JumpEqual target =>
    dsimp only
    split_ifs <;> rfl
  | JumpGreater target =>
    dsimp only
    split_ifs <;> rfl
  | JumpLess target =>
    dsimp only
    split_ifs <;> rfl
  | Compare v => rfl
  | Page v =>
    dsimp only
    split_ifs <;> rfl
  | Add v => rfl
  | None => rfl

theorem make_moveF_getTrigger (s : GamePlayState) (a : PlayerMove) (pid k : Nat) :
    ((s.make_moveF a).2.2 = some (pid, k) →
       ∃ t, s.getTrigger pid k = some t ∧ t.is_active = true
         ∧ (s.make_move a).getTrigger pid k = some { t with triggered := true })
    ∧ ((s.make_moveF a).2.2 ≠ some (pid, k) →
       (s.make_move a).getTrigger pid k = s.getTrigger pid k) := by
  unfold GamePlayState.make_move GamePlayState.make_moveF
  dsimp only
  have hmp := movePhase_getTrigger s a pid k
  have hat := apply_triggersF_spec (s.movePhase a).1 pid k
  have hvis : ∀ (x : GamePlayState) (v : Nat → Bool),
      ({ x with visited_pages := v } : GamePlayState).getTrigger pid k
        = x.getTrigger pid k := fun x v => rfl
  constructor
  · intro hfire
    rcases hat.1 hfire with ⟨t, ht, hact, hafter⟩
    refine ⟨t, by rw [← hmp]; exact ht, hact, ?_⟩
    rw [hvis]
    split
    · rw [step_cpu_getTrigger]
      exact hafter
    · exact hafter
  · intro hnf
    have hsame := hat.2 hnf
    rw [hvis]
    rw [← hmp]
    split
    · rw [step_cpu_getTrigger]
      exact hsame
    · exact hsame

theorem one_time_untriggered (t : Trigger) (h1 : t.one_time = true)
    (h2 : t.is_active = true) : t.triggered = false := by
  unfold Trigger.is_active at h2
  rw [h1] at h2
  cases htr : t.triggered
  · rfl
  · rw [htr] at h2
    simp at h2

theorem runFires_le (acts : List PlayerMove) :
    ∀ (s : GamePlayState) (pid k : Nat) (t : Trigger),
      s.getTrigger pid k = some t → t.one_time = true →
      s.runFires acts (pid, k) ≤ if t.triggered then 0 else 1 := by
  induction acts with
  | nil =>
    intro s pid k t _ _
    unfold GamePlayState.runFires
    split <;> omega
  | cons a rest ih =>
    intro s pid k t ht hone
    unfold GamePlayState.runFires
    by_cases hf : (s.make_moveF a).2.2 = some (pid, k)
    · rw [if_pos hf]
      rcases (make_moveF_getTrigger s a pid k).1 hf with ⟨t', ht', hact', hafter⟩
      have heq : t = t' := Option.some.inj (ht.symm.trans ht')
      subst heq
      have htrig : t.triggered = false := one_time_untriggered t hone hact'
      have hrest := ih (s.make_move a) pid k { t with triggered := true } hafter hone
      rw [if_pos rfl] at hrest
      rw [htrig, if_neg (by simp)]
      omega
    · rw [if_neg hf]
      have hsame := (make_moveF_getTrigger s a pid k).2 hf
      have hrest := ih (s.make_move a) pid k t (by rw [hsame]; exact ht) hone
      simpa using hrest

theorem fires_on_visit (s : GamePlayState) (a : PlayerMove) (pos : V2) (t : Trigger)
    (hpp : (s.movePhase a).1.player = .Pos pos)
    (ht : (s.movePhase a).1.getTrigger ((s.movePhase a).1.player_page) (joinu16 pos)
        = some t)
    (hone : t.one_time = false) :
    (s.make_moveF a).2.2 = some ((s.movePhase a).1.player_page, joinu16 pos) := by
  unfold GamePlayState.make_moveF
  dsimp only
  unfold GamePlayState.apply_triggersF
  rw [hpp]
  dsimp only
  unfold GamePlayState.getTrigger at ht
  cases hpg : (s.movePhase a).1.pages (s.movePhase a).1.player_page with
  | none =>
    rw [hpg] at ht
    simp at ht
  | some page =>
    rw [hpg] at ht
    simp only [Option.some_bind] at ht
    dsimp only
    rw [ht]
    dsimp only
    have hact : t.is_active = true := by
      unfold Trigger.is_active
      rw [hone]
      cases t.triggered <;> rfl
    rw [if_neg (by simp [hact])]

/-- **C6**: across any sequence of `make_move` actions, a one-time trigger
fires at most once (never again once `triggered` is set, which firing
sets, making `is_active` false), while a non-one-time trigger fires on
every visit: whenever, after the movement phase of an action, the player
stands on the position of a present non-one-time trigger of its page,
that action fires it. -/
theorem c6_trigger_semantics (s : GamePlayState) (acts : List PlayerMove) (pid k : Nat) :
    (∀ t, s.getTrigger pid k = some t → t.one_time = true →
        s.runFires acts (pid, k) ≤ if t.triggered then 0 else 1)
    ∧ (∀ a pos t, (s.movePhase a).1.player = .Pos pos →
        (s.movePhase a).1.getTrigger ((s.movePhase a).1.player_page) (joinu16 pos)
            = some t →
        t.one_time = false →
        (s.make_moveF a).2.2 = some ((s.movePhase a).1.player_page, joinu16 pos))
    ∧ (∀ a, (s.make_moveF a).2.2 = some (pid, k) →
        ∃ t', (s.make_move a).getTrigger pid k = some t' ∧ t'.triggered = true
          ∧ (t'.one_time = true → t'.is_active = false)) :=
  ⟨fun t ht hone => runFires_le acts s pid k t ht hone,
   fun a pos t hpp ht hone => fires_on_visit s a pos t hpp ht hone,
   fun a hf => by
     rcases (make_moveF_getTrigger s a pid k).1 hf with ⟨t, _, _, hafter⟩
     refine ⟨{ t with triggered := true }, hafter, rfl, fun h1 => ?_⟩
     unfold Trigger.is_active
     rw [h1]
     rfl⟩

/-- Witness for C6: the one-time trigger of `c10demo` fires at most once
over a concrete action sequence. -/
theorem c6_trigger_semantics_witness :
    c10demo.runFires [.RotatePage, .RotatePage] (7, 256) ≤ 1 := by
  have h := (c6_trigger_semantics c10demo [.RotatePage, .RotatePage] 7 256).1
    ⟨⟨1, 0⟩, .SetPC 0x1010, true, false⟩ (by decide) rfl
  simpa using h
